import Mathlib

/-!
Shallow embedding of the step orchestrator of the rapier physics pipeline
(src/pipeline/physics_pipeline.rs) together with the voxel fracture hook
(src/pipeline/voxel_fracture_hooks.rs).  Real-valued quantities are modelled
by rationals so that every definition is executable and all arithmetic is
exact.  External collaborators (island solver, CCD solver, rigid-body store)
appear either as oracle parameters or as definitions modelled from the spec,
as flagged in the corresponding doc comments.
-/

set_option maxHeartbeats 1000000

/-- Result of one iteration of the CCD substep-planning phase of
PhysicsPipeline::step: the dt written into the working copy of the
integration parameters, the value of the remaining_time variable after the
iteration, and the value of the remaining_substeps variable. -/
structure IterOut where
  dt : ℚ
  rt : ℚ
  n : ℕ
deriving DecidableEq

/-- Translation of the substep-planning part of one iteration of the loop in
PhysicsPipeline::step (physics_pipeline.rs lines 341-377).  The argument tk
is the result of the ccd_solver.find_first_impact call for this iteration,
rt is remaining_time, n is remaining_substeps and minCcdDt is
integration_parameters.min_ccd_dt.  The first branch mirrors the
ccd_active && remaining_substeps > 1 case, including the final
remaining_time <= min_ccd_dt fold; the else branch consumes the whole
remaining time in a single final substep. -/
def planIter (ccd : Bool) (tk : Option ℚ) (minCcdDt rt : ℚ) (n : ℕ) : IterOut :=
  if ccd = true ∧ 1 < n then
    let dn : ℚ × ℕ :=
      match tk with
      | some toi =>
        (if toi < rt / (n : ℚ) then rt / (n : ℚ) else toi + (rt - toi) / (n : ℚ), n - 1)
      | none => (rt, 1)
    if rt - dn.1 ≤ minCcdDt then ⟨dn.1 + (rt - dn.1), rt - dn.1, 1⟩
    else ⟨dn.1, rt - dn.1, dn.2⟩
  else ⟨rt, 0, 1⟩

/-- Observable record of one executed substep of PhysicsPipeline::step: the dt
value the substep solved with, and whether the CCD motion-clamping phase
(run_ccd_motion_clamping) executed during this substep.  The clamping phase
runs exactly when ccd_active && remaining_substeps > 0 holds at line 390. -/
structure Substep where
  dt : ℚ
  clampRan : Bool
deriving DecidableEq

/-- Fuel-indexed translation of the substep loop of PhysicsPipeline::step
(lines 341-417).  The oracle toi gives the result of the k-th
find_first_impact call.  Each iteration plans a substep with planIter,
records the substep (dt and whether motion clamping ran), and continues
exactly when the bottom-of-loop exit test !ccd_active || remaining_substeps
<= 1 fails.  The second component of the result is the portion of the
initial remaining time that the loop exits without having simulated
(remaining_time minus what was folded into the last substep dt).
The fuel only bounds recursion depth; substepRun supplies enough of it. -/
def substepRunAux (ccd : Bool) (toi : ℕ → Option ℚ) (minCcdDt : ℚ) :
    ℕ → ℕ → ℚ → ℕ → List Substep × ℚ
  | 0, _, rt, _ => ([], rt)
  | fuel + 1, k, rt, n =>
    let it := planIter ccd (toi k) minCcdDt rt n
    let s : Substep := ⟨it.dt, ccd && decide (0 < it.n)⟩
    if ccd = true ∧ 1 < it.n then
      let r := substepRunAux ccd toi minCcdDt fuel (k + 1) it.rt it.n
      (s :: r.1, r.2)
    else
      ([s], rt - it.dt)

/-- The substep loop of PhysicsPipeline::step started the way step starts it:
remaining_time = dt, remaining_substeps = max_ccd_substeps, first
find_first_impact call index 0.  Returns the executed substeps and the
unsimulated leftover time. -/
def substepRun (ccd : Bool) (toi : ℕ → Option ℚ) (minCcdDt rt : ℚ) (n : ℕ) :
    List Substep × ℚ :=
  substepRunAux ccd toi minCcdDt (n + 1) 0 rt n

/-- Oracle for a CCD solver whose find_first_impact never finds an impact. -/
def toiNone : ℕ → Option ℚ := fun _ => none

/-- Oracle for a CCD solver whose find_first_impact always reports an impact
at time 1/5. -/
def toiFifth : ℕ → Option ℚ := fun _ => some (1 / 5)

/-- Translation of the per-island state transformation performed by one
solve_island call in build_islands_and_solve_constraints: the flat body,
manifold and joint storage is modelled as one store indexed by natural
numbers, island k owns the cells listed in idx k, and the external island
solver f rewrites exactly the cells of the owning island (the orchestrator
passes only that island's index-selected slices). -/
def applyIslandSolve {V : Type} (f : ℕ → (ℕ → V) → ℕ → V) (idx : ℕ → List ℕ)
    (k : ℕ) (s : ℕ → V) : ℕ → V :=
  fun j => if j ∈ idx k then f k s j else s j

/-- Translation of the sequential dispatch strategy of
build_islands_and_solve_constraints (the non-parallel branch, lines
194-210): islands are solved one after the other in ascending identifier
order, each solve reading the store left by the previous ones. -/
def solveIslandsSeq {V : Type} (f : ℕ → (ℕ → V) → ℕ → V) (idx : ℕ → List ℕ)
    (numIslands : ℕ) (s : ℕ → V) : ℕ → V :=
  (List.range numIslands).foldl (fun acc k => applyIslandSolve f idx k acc) s

/-- Modelled from the spec: the concurrent worker-pool dispatch strategy of
build_islands_and_solve_constraints (the parallel feature branch, lines
212-252, whose rayon scope and raw-pointer sharing are outside the shallow
embedding).  Each worker receives exclusive logical ownership of the memory
reachable through its island's index lists and solves its island from the
pre-dispatch store; the fork-join barrier then merges the per-island
results, every cell taking its value from the unique owning island and
unowned cells staying untouched. -/
def solveIslandsPar {V : Type} (f : ℕ → (ℕ → V) → ℕ → V) (idx : ℕ → List ℕ)
    (numIslands : ℕ) (s : ℕ → V) : ℕ → V :=
  fun j =>
    match (List.range numIslands).find? (fun k => decide (j ∈ idx k)) with
    | some k => f k s j
    | none => s j

/-- Example ownership map for the dispatch-equivalence witness: island k
owns exactly cell k. -/
def exIdx : ℕ → List ℕ := fun k => [k]

/-- Example island solver for the dispatch-equivalence witness: bump the
owned cell by one. -/
def exSolve : ℕ → (ℕ → ℚ) → ℕ → ℚ := fun _ s j => s j + 1

/-- Example initial store for the dispatch-equivalence witness. -/
def exState : ℕ → ℚ := fun _ => 0

/-- A rigid-body pose: planar translation components plus a rotation
coordinate, enough to state the position and velocity bookkeeping of the
pipeline exactly. -/
structure Iso where
  trX : ℚ
  trY : ℚ
  rot : ℚ
deriving DecidableEq

/-- The fields of a rigid body the pipeline phases touch: activity and
kinematic flags, linear and angular velocity, current position and the
prescribed next position. -/
structure RigidBody where
  isActive : Bool
  isKinematic : Bool
  linvelX : ℚ
  linvelY : ℚ
  angvel : ℚ
  position : Iso
  next_position : Iso
deriving DecidableEq

/-- A collider: the index of its parent body and its stored world position. -/
structure Collider where
  parent : ℕ
  pos : Iso
deriving DecidableEq

/-- Modelled from the spec: IntegrationParameters::inv_dt (not under src);
the inverse of the substep dt, with the zero-duration guard implied by the
never-fail policy of section 7. -/
def invDtOf (dt : ℚ) : ℚ := if dt = 0 then 0 else 1 / dt

/-- Modelled from the spec: RigidBody::compute_velocity_from_next_position
(not under src); the velocity of a kinematic body is derived from its
prescribed next position as (next_position minus position) scaled by the
inverse substep dt. -/
def computeVelocityFromNextPosition (invDt : ℚ) (rb : RigidBody) : RigidBody :=
  { rb with
    linvelX := (rb.next_position.trX - rb.position.trX) * invDt
    linvelY := (rb.next_position.trY - rb.position.trY) * invDt
    angvel := (rb.next_position.rot - rb.position.rot) * invDt }

/-- Translation of PhysicsPipeline::interpolate_kinematic_velocities (lines
291-304): every active kinematic body gets its velocity recomputed from its
next position using the inverse of the current substep dt. -/
def interpolateKinematicVelocities (invDt : ℚ) (bodies : List RigidBody) :
    List RigidBody :=
  bodies.map fun rb =>
    if rb.isActive && rb.isKinematic then computeVelocityFromNextPosition invDt rb
    else rb

/-- Per-body part of PhysicsPipeline::advance_to_final_positions (lines
280-287): kinematic bodies get their linear and angular velocities zeroed,
then every body moves to its next position. -/
def advanceBody (rb : RigidBody) : RigidBody :=
  let rb1 := if rb.isKinematic then { rb with linvelX := 0, linvelY := 0, angvel := 0 }
    else rb
  { rb1 with position := rb1.next_position }

/-- Translation of PhysicsPipeline::advance_to_final_positions (lines
274-289): every active body is advanced with advanceBody, and the collider
position propagation of update_colliders_positions (not under src) is
modelled from the spec as writing the parent body's new position into every
attached collider. -/
def advanceToFinalPositions (bodies : List RigidBody) (cs : List Collider) :
    List RigidBody × List Collider :=
  let bodies2 := bodies.map fun rb => if rb.isActive then advanceBody rb else rb
  (bodies2,
    cs.map fun c =>
      match bodies2[c.parent]? with
      | some rb => if rb.isActive then { c with pos := rb.position } else c
      | none => c)

/-- Example active kinematic body for the C7 witness. -/
def bodyEx : RigidBody := ⟨true, true, 5, 6, 7, ⟨0, 1, 2⟩, ⟨10, 21, 32⟩⟩

/-- Example collider attached to bodyEx for the C7 witness. -/
def colEx : Collider := ⟨0, ⟨9, 9, 9⟩⟩

/-- The three persistent workspace vectors of PhysicsPipeline that are grown
per island slot: manifold_indices, joint_constraint_indices, and solvers
(one island solver per slot, modelled as an opaque numeric slot value
created as 0 by IslandSolver::new). -/
structure PhysicsWorkspace where
  manifold_indices : List (List ℕ)
  joint_constraint_indices : List (List ℕ)
  solvers : List ℕ
deriving DecidableEq

/-- Rust Vec::resize / resize_with semantics: extend with copies of d up to
length n, or truncate down to length n. -/
def vecResize {α : Type} (l : List α) (n : ℕ) (d : α) : List α :=
  l.take n ++ List.replicate (n - l.length) d

/-- Translation of the workspace-growing part of
PhysicsPipeline::build_islands_and_solve_constraints (lines 167-175 and
189-192): each of the three vectors is resized to the island count only
when its current length is smaller than the island count. -/
def growWorkspace (ws : PhysicsWorkspace) (numIslands : ℕ) : PhysicsWorkspace :=
  let mi := if ws.manifold_indices.length < numIslands
    then vecResize ws.manifold_indices numIslands [] else ws.manifold_indices
  let ji := if ws.joint_constraint_indices.length < numIslands
    then vecResize ws.joint_constraint_indices numIslands [] else ws.joint_constraint_indices
  let so := if ws.solvers.length < numIslands
    then vecResize ws.solvers numIslands 0 else ws.solvers
  ⟨mi, ji, so⟩

/-- The workspace evolution across one step call: build_islands_and_solve
runs once per substep, each time with the island count of that substep. -/
def stepWorkspace (ws : PhysicsWorkspace) (counts : List ℕ) : PhysicsWorkspace :=
  counts.foldl growWorkspace ws

/-- Example workspace for the C8 witness: one manifold-index slot, no
joint slots, one solver slot. -/
def wsEx : PhysicsWorkspace := ⟨[[1]], [], [7]⟩

/-- Translation of VoxelFractureMaterial (voxel_fracture_hooks.rs lines
7-13). -/
structure VoxelFractureMaterial where
  max_momentum : ℚ
  min_force : ℚ
  normal_dissipation : ℚ
  max_fracture_radius : ℚ
deriving DecidableEq

/-- Modelled from the spec: crate::utils::inv (not under src), the explicit
epsilon-safe inverse guarding division by near-zero quantities; arguments
within eps of zero invert to zero instead of being divided by. -/
def epsInv (eps x : ℚ) : ℚ := if |x| ≤ eps then 0 else 1 / x

/-- Translation of the per-contact-point fracture radius computation of
VoxelFractureHooks::post_solve (voxel_fracture_hooks.rs lines 62-69): the
force is the impulse scaled by the inverse timestep, points with force
below min_force are skipped, and otherwise the radius is max_momentum times
the epsilon-safe inverse of the force. -/
def fractureRadiusAt (mat : VoxelFractureMaterial) (eps invDt impulse : ℚ) :
    Option ℚ :=
  let force := impulse * invDt
  if force < mat.min_force then none
  else some (mat.max_momentum * epsInv eps force)

/-- Example fracture material for the C9 witness (the default material of
voxel_fracture_hooks.rs lines 15-24). -/
def matEx : VoxelFractureMaterial := ⟨10, 1, 1, 1⟩

lemma planIter_n_pos (ccd : Bool) (tk : Option ℚ) (m rt : ℚ) (n : ℕ) :
    1 ≤ (planIter ccd tk m rt n).n := by
  unfold planIter
  by_cases hg : ccd = true ∧ 1 < n
  · obtain ⟨hc, hn⟩ := hg
    rw [if_pos ⟨hc, hn⟩]
    rcases tk with _ | t <;> dsimp only <;> split_ifs <;> simp <;> omega
  · rw [if_neg hg]

lemma planIter_continue (ccd : Bool) (tk : Option ℚ) (m rt : ℚ) (n : ℕ)
    (h : 1 < (planIter ccd tk m rt n).n) :
    (planIter ccd tk m rt n).n = n - 1 ∧ 1 < n ∧
      (planIter ccd tk m rt n).rt = rt - (planIter ccd tk m rt n).dt := by
  unfold planIter at h ⊢
  by_cases hg : ccd = true ∧ 1 < n
  · obtain ⟨hc, hn⟩ := hg
    rw [if_pos ⟨hc, hn⟩] at h ⊢
    rcases tk with _ | t <;> dsimp only at h ⊢ <;> split_ifs at h ⊢ <;> simp_all
  · rw [if_neg hg] at h
    simp at h

lemma substepRunAux_sum (ccd : Bool) (toi : ℕ → Option ℚ) (m : ℚ) :
    ∀ (fuel k : ℕ) (rt : ℚ) (n : ℕ), n < fuel →
      ((substepRunAux ccd toi m fuel k rt n).1.map Substep.dt).sum
        + (substepRunAux ccd toi m fuel k rt n).2 = rt := by
  intro fuel
  induction fuel with
  | zero => intro k rt n h; exact absurd h (Nat.not_lt_zero n)
  | succ fuel ih =>
    intro k rt n hn
    simp only [substepRunAux]
    by_cases hc : ccd = true ∧ 1 < (planIter ccd (toi k) m rt n).n
    · rw [if_pos hc]
      obtain ⟨heq, hlt, hrt⟩ := planIter_continue ccd (toi k) m rt n hc.2
      have hfuel : (planIter ccd (toi k) m rt n).n < fuel := by omega
      have hrec := ih (k + 1) (planIter ccd (toi k) m rt n).rt
        (planIter ccd (toi k) m rt n).n hfuel
      simp only [List.map_cons, List.sum_cons]
      rw [add_assoc, hrec, hrt]
      ring
    · rw [if_neg hc]
      simp only [List.map_cons, List.map_nil, List.sum_cons, List.sum_nil]
      ring

lemma substepRunAux_clamp (ccd : Bool) (toi : ℕ → Option ℚ) (m : ℚ) :
    ∀ (fuel k : ℕ) (rt : ℚ) (n : ℕ) (s : Substep), n < fuel →
      s ∈ (substepRunAux ccd toi m fuel k rt n).1 → s.clampRan = ccd := by
  intro fuel
  induction fuel with
  | zero => intro k rt n s h; exact absurd h (Nat.not_lt_zero n)
  | succ fuel ih =>
    intro k rt n s hn hs
    have hpos : 0 < (planIter ccd (toi k) m rt n).n := planIter_n_pos ccd (toi k) m rt n
    simp only [substepRunAux] at hs
    by_cases hc : ccd = true ∧ 1 < (planIter ccd (toi k) m rt n).n
    · rw [if_pos hc] at hs
      rcases List.mem_cons.1 hs with hhd | htl
      · rw [hhd]
        simp [hpos]
      · obtain ⟨heq, hlt, hrt⟩ := planIter_continue ccd (toi k) m rt n hc.2
        exact ih (k + 1) (planIter ccd (toi k) m rt n).rt
          (planIter ccd (toi k) m rt n).n s (by omega) htl
    · rw [if_neg hc] at hs
      rcases List.mem_cons.1 hs with hhd | htl
      · rw [hhd]
        simp [hpos]
      · exact absurd htl (List.not_mem_nil s)

lemma substepRunAux_len (ccd : Bool) (toi : ℕ → Option ℚ) (m : ℚ) :
    ∀ (fuel k : ℕ) (rt : ℚ) (n : ℕ), n < fuel →
      1 ≤ (substepRunAux ccd toi m fuel k rt n).1.length ∧
        (substepRunAux ccd toi m fuel k rt n).1.length ≤ max 1 n := by
  intro fuel
  induction fuel with
  | zero => intro k rt n h; exact absurd h (Nat.not_lt_zero n)
  | succ fuel ih =>
    intro k rt n hn
    simp only [substepRunAux]
    by_cases hc : ccd = true ∧ 1 < (planIter ccd (toi k) m rt n).n
    · rw [if_pos hc]
      obtain ⟨heq, hlt, hrt⟩ := planIter_continue ccd (toi k) m rt n hc.2
      have hrec := ih (k + 1) (planIter ccd (toi k) m rt n).rt
        (planIter ccd (toi k) m rt n).n (by omega)
      simp only [List.length_cons]
      omega
    · rw [if_neg hc]
      simp only [List.length_cons, List.length_nil]
      omega

lemma planIter_trivial (ccd : Bool) (tk : Option ℚ) (m rt : ℚ) (n : ℕ)
    (h : ccd = false ∨ n ≤ 1) : planIter ccd tk m rt n = ⟨rt, 0, 1⟩ := by
  unfold planIter
  rw [if_neg]
  rintro ⟨hc, hn⟩
  rcases h with h | h
  · rw [h] at hc
    exact Bool.false_ne_true hc
  · omega

/-- C1 counterexample: with dt = D = 1 (D >= 0), CCD active,
max_ccd_substeps = 2, min_ccd_dt = 1/10 and find_first_impact reporting an
impact at 1/5, the loop executes a single substep of dt = 1/2 and exits with
1/2 of the requested time never simulated, so the sum of the substep dt
values is 1/2, not D = 1.  (After the TOI branch decrements
remaining_substeps from 2 to 1 without triggering the min_ccd_dt fold, the
bottom-of-loop test remaining_substeps <= 1 breaks out of the loop even
though remaining_time is still positive.) -/
theorem step_dt_sum_counterexample :
    ((substepRun true toiFifth (1 / 10) 1 2).1.map Substep.dt).sum = 1 / 2 ∧
      ¬ ((1 : ℚ) / 2 = 1) := by
  norm_num [substepRun, substepRunAux, planIter, toiFifth]

/-- C1 (amended): for every invocation of the substep loop with
remaining_time = D, the sum of the substep dt values plus the leftover time
the loop exits without simulating equals D exactly; the leftover is zero
whenever CCD is inactive, but it can be positive when CCD is active, so the
plain sum of substep dt values can be strictly less than D. -/
theorem step_dt_sum_plus_leftover (ccd : Bool) (toi : ℕ → Option ℚ)
    (m rt : ℚ) (n : ℕ) :
    ((substepRun ccd toi m rt n).1.map Substep.dt).sum
        + (substepRun ccd toi m rt n).2 = rt ∧
      (ccd = false → (substepRun ccd toi m rt n).2 = 0) := by
  constructor
  · exact substepRunAux_sum ccd toi m (n + 1) 0 rt n (Nat.lt_succ_self n)
  · intro hccd
    subst hccd
    unfold substepRun substepRunAux
    rw [if_neg (by simp)]
    rw [planIter_trivial false (toi 0) m rt n (Or.inl rfl)]
    ring

/-- Witness for C1 (amended) at concrete inputs: a CCD-active run with
D = 1, max_ccd_substeps = 2, and a CCD-inactive run. -/
theorem step_dt_sum_plus_leftover_witness :
    ((substepRun true toiFifth (1 / 10) 1 2).1.map Substep.dt).sum
        + (substepRun true toiFifth (1 / 10) 1 2).2 = 1 ∧
      (substepRun false toiFifth (1 / 10) 1 2).2 = 0 :=
  ⟨(step_dt_sum_plus_leftover true toiFifth (1 / 10) 1 2).1,
    (step_dt_sum_plus_leftover false toiFifth (1 / 10) 1 2).2 rfl⟩

/-- C3 counterexample: in a planning iteration with CCD active,
remaining_time = 1, remaining_substeps = 3, min_ccd_dt = 2/3 and a TOI of
1/4, this substep's dt is first computed as 1/3, so the new remaining_time
is 1 - 1/3 = 2/3, which equals min_ccd_dt exactly and is not strictly less
than it; yet the code folds the leftover into the substep dt (dt becomes 1)
and forces remaining_substeps to 1, because the source comparison is
remaining_time <= min_ccd_dt, not a strict one.  This refutes the claim
that no fold occurs at exact equality. -/
theorem ccd_fold_threshold_counterexample :
    (planIter true (some (1 / 4)) (2 / 3) 1 3).dt = 1 ∧
      (planIter true (some (1 / 4)) (2 / 3) 1 3).n = 1 ∧
      ¬ ((1 : ℚ) - 1 / 3 < 2 / 3) := by
  norm_num [planIter]

/-- C3 (amended): in every substep-planning iteration with CCD active and
more than one substep remaining, after this substep's dt (written d below,
matching the value the TOI branch computes) is subtracted from
remaining_time, the leftover is folded into the substep dt and
remaining_substeps is forced to 1 if and only if the new remaining_time is
less than or equal to min_ccd_dt; in particular the fold does occur when
the new remaining_time equals min_ccd_dt exactly. -/
theorem ccd_fold_threshold (tk : Option ℚ) (m rt : ℚ) (n : ℕ) (d : ℚ)
    (hn : 1 < n)
    (hd : d = match tk with
      | some t => if t < rt / (n : ℚ) then rt / (n : ℚ) else t + (rt - t) / (n : ℚ)
      | none => rt) :
    (rt - d ≤ m → planIter true tk m rt n = ⟨d + (rt - d), rt - d, 1⟩) ∧
      (m < rt - d → planIter true tk m rt n =
        ⟨d, rt - d, match tk with | some _ => n - 1 | none => 1⟩) := by
  subst hd
  unfold planIter
  rw [if_pos ⟨rfl, hn⟩]
  rcases tk with _ | t
  · dsimp only
    constructor
    · intro h
      rw [if_pos h]
    · intro h
      rw [if_neg (not_le.mpr h)]
  · dsimp only
    constructor
    · intro h
      rw [if_pos h]
    · intro h
      rw [if_neg (not_le.mpr h)]

/-- Witness for C3 (amended): the fold branch at exact equality
(rt = 1, n = 3, min_ccd_dt = 2/3, TOI 1/4 gives d = 1/3 and leftover 2/3)
and the no-fold branch (rt = 1, n = 2, min_ccd_dt = 1/10, TOI 1/5 gives
d = 1/2 and leftover 1/2 > 1/10). -/
theorem ccd_fold_threshold_witness :
    planIter true (some (1 / 4)) (2 / 3) 1 3 = ⟨1 / 3 + (1 - 1 / 3), 1 - 1 / 3, 1⟩ ∧
      planIter true (some (1 / 5)) (1 / 10) 1 2 = ⟨1 / 2, 1 - 1 / 2, 1⟩ :=
  ⟨(ccd_fold_threshold (some (1 / 4)) (2 / 3) 1 3 (1 / 3) (by norm_num)
      (by norm_num)).1 (by norm_num),
    (ccd_fold_threshold (some (1 / 5)) (1 / 10) 1 2 (1 / 2) (by norm_num)
      (by norm_num)).2 (by norm_num)⟩

/-- C4 counterexample: a CCD-active step with max_ccd_substeps = 1 executes
exactly one substep, which is the final substep, and the CCD motion-clamping
phase runs during it (clampRan = true), because the source guard at line 390
is ccd_active && remaining_substeps > 0 and remaining_substeps is always at
least 1 there.  This refutes the claim that clamping never executes on the
final substep of a CCD-active step. -/
theorem ccd_clamp_counterexample :
    (substepRun true toiNone 0 1 1).1 = [⟨1, true⟩] := by
  norm_num [substepRun, substepRunAux, planIter, toiNone]

/-- C4 (amended): within each iteration of the substep loop, the CCD
motion-clamping phase executes if and only if CCD is active for this step
call; the additional remaining_substeps > 0 conjunct of the source guard is
always true because remaining_substeps is at least 1 after planning, so
clamping also runs on the final substep of a CCD-active step. -/
theorem ccd_clamp_iff_active (ccd : Bool) (toi : ℕ → Option ℚ) (m rt : ℚ)
    (n : ℕ) (s : Substep) (hs : s ∈ (substepRun ccd toi m rt n).1) :
    s.clampRan = ccd :=
  substepRunAux_clamp ccd toi m (n + 1) 0 rt n s (Nat.lt_succ_self n) hs

/-- Witness for C4 (amended) at a concrete CCD-active two-substep run. -/
theorem ccd_clamp_iff_active_witness :
    Substep.clampRan ⟨1, true⟩ = true :=
  ccd_clamp_iff_active true toiNone 0 1 2 ⟨1, true⟩ (by
    norm_num [substepRun, substepRunAux, planIter, toiNone])

/-- C5: in every substep-planning iteration where CCD is active, more than
one substep remains, and find_first_impact returns a TOI t, the iteration
behaves exactly as: compute uniform = remaining_time / remaining_substeps;
this substep's dt is uniform if t < uniform and otherwise
t + (remaining_time - t) / remaining_substeps, and remaining_substeps is
decremented by exactly 1 (the subsequent min_ccd_dt fold acting on that dt
and decremented count as specified elsewhere). -/
theorem substep_toi_dt (t m rt : ℚ) (n : ℕ) (hn : 1 < n) :
    planIter true (some t) m rt n =
      (let u : ℚ := rt / (n : ℚ)
       let d : ℚ := if t < u then u else t + (rt - t) / (n : ℚ)
       if rt - d ≤ m then ⟨d + (rt - d), rt - d, 1⟩ else ⟨d, rt - d, n - 1⟩) := by
  unfold planIter
  rw [if_pos ⟨rfl, hn⟩]

/-- Witness for C5 at concrete inputs rt = 1, n = 2, TOI 1/5,
min_ccd_dt = 1/10: dt = uniform = 1/2 and substeps decremented to 1. -/
theorem substep_toi_dt_witness :
    planIter true (some (1 / 5)) (1 / 10) 1 2 = ⟨1 / 2, 1 / 2, 1⟩ := by
  rw [substep_toi_dt (1 / 5) (1 / 10) 1 2 (by norm_num)]
  norm_num

/-- C6: whenever CCD is not active for the step or max_ccd_substeps is at
most 1, the substep loop executes exactly one iteration, that substep uses
the full original dt, and the loop leaves no unsimulated time. -/
theorem single_substep (ccd : Bool) (toi : ℕ → Option ℚ) (m rt : ℚ) (n : ℕ)
    (h : ccd = false ∨ n ≤ 1) :
    (substepRun ccd toi m rt n).1 = [⟨rt, ccd⟩] ∧
      (substepRun ccd toi m rt n).2 = 0 := by
  unfold substepRun substepRunAux
  rw [planIter_trivial ccd (toi 0) m rt n h]
  rw [if_neg (by rintro ⟨hc, hl⟩; exact absurd hl (by norm_num))]
  refine ⟨?_, by ring⟩
  simp

/-- Witness for C6 with CCD inactive, max_ccd_substeps = 5 and dt = 1. -/
theorem single_substep_witness :
    (substepRun false toiFifth (1 / 10) 1 5).1 = [⟨1, false⟩] :=
  (single_substep false toiFifth (1 / 10) 1 5 (Or.inl rfl)).1

/-- C10: for every input, the substep loop terminates after at least one and
at most max 1 max_ccd_substeps iterations (the run is a total function of
its inputs, and its trace length obeys these bounds). -/
theorem substep_loop_bounded (ccd : Bool) (toi : ℕ → Option ℚ) (m rt : ℚ)
    (n : ℕ) :
    1 ≤ (substepRun ccd toi m rt n).1.length ∧
      (substepRun ccd toi m rt n).1.length ≤ max 1 n :=
  substepRunAux_len ccd toi m (n + 1) 0 rt n (Nat.lt_succ_self n)

lemma foldl_islands_eq {V : Type} (f : ℕ → (ℕ → V) → ℕ → V) (idx : ℕ → List ℕ)
    (hdis : ∀ k1 k2, k1 ≠ k2 → ∀ j, j ∈ idx k1 → j ∉ idx k2)
    (hloc : ∀ k s1 s2, (∀ j, j ∈ idx k → s1 j = s2 j) →
      ∀ j, j ∈ idx k → f k s1 j = f k s2 j) :
    ∀ (L : List ℕ), L.Nodup → ∀ (s : ℕ → V) (j : ℕ),
      L.foldl (fun acc k => applyIslandSolve f idx k acc) s j =
        (match L.find? (fun k => decide (j ∈ idx k)) with
          | some k => f k s j
          | none => s j) := by
  intro L
  induction L with
  | nil => intro _ s j; simp
  | cons a L ih =>
    intro hnd s j
    obtain ⟨ha, hndL⟩ := List.nodup_cons.1 hnd
    rw [List.foldl_cons, ih hndL]
    by_cases hja : j ∈ idx a
    · have hfnone : L.find? (fun k => decide (j ∈ idx k)) = none := by
        rw [List.find?_eq_none]
        intro k hk
        simp only [decide_eq_true_eq]
        exact hdis a k (fun h => ha (h ▸ hk)) j hja
      have hfcons : (a :: L).find? (fun k => decide (j ∈ idx k)) = some a :=
        List.find?_cons_of_pos L (by simpa using hja)
      rw [hfnone, hfcons]
      simp [applyIslandSolve, hja]
    · have hfcons : (a :: L).find? (fun k => decide (j ∈ idx k)) =
          L.find? (fun k => decide (j ∈ idx k)) :=
        List.find?_cons_of_neg L (by simpa using hja)
      rw [hfcons]
      cases hfd : L.find? (fun k => decide (j ∈ idx k)) with
      | none => simp [applyIslandSolve, hja]
      | some k =>
        have hjk : j ∈ idx k := by simpa using List.find?_some hfd
        have hkL : k ∈ L := List.mem_of_find?_eq_some hfd
        have hka : k ≠ a := fun h => ha (h ▸ hkL)
        refine hloc k _ s ?_ j hjk
        intro i hi
        simp only [applyIslandSolve]
        rw [if_neg (fun hia => hdis k a hka i hi hia)]

/-- C2: for every island configuration whose per-island index lists are
pairwise disjoint and whose island solver reads only the cells its island
owns, dispatching the island solves with the sequential strategy and with
the concurrent worker-pool strategy produces identical post-solve values in
every cell of the store (bodies, manifolds and joints alike): the two
dispatch implementations of build_islands_and_solve_constraints are
behaviorally equivalent. -/
theorem island_dispatch_equiv {V : Type} (f : ℕ → (ℕ → V) → ℕ → V)
    (idx : ℕ → List ℕ) (numIslands : ℕ) (s : ℕ → V)
    (hdis : ∀ k1 k2, k1 ≠ k2 → ∀ j, j ∈ idx k1 → j ∉ idx k2)
    (hloc : ∀ k s1 s2, (∀ j, j ∈ idx k → s1 j = s2 j) →
      ∀ j, j ∈ idx k → f k s1 j = f k s2 j)
    (j : ℕ) :
    solveIslandsSeq f idx numIslands s j = solveIslandsPar f idx numIslands s j :=
  foldl_islands_eq f idx hdis hloc (List.range numIslands)
    (List.nodup_range numIslands) s j

/-- Witness for C2 on a concrete two-island configuration. -/
theorem island_dispatch_equiv_witness :
    solveIslandsSeq exSolve exIdx 2 exState 0 = solveIslandsPar exSolve exIdx 2 exState 0 := by
  apply island_dispatch_equiv
  · intro k1 k2 hne j h1 h2
    simp only [exIdx, List.mem_singleton] at h1 h2
    exact hne (by omega)
  · intro k s1 s2 hag j hj
    simp only [exSolve]
    rw [hag j hj]

/-- C7: for every active kinematic body in a substep of nonzero duration h,
the INTERPOLATE phase sets its velocity components to (next_position minus
current position) scaled by 1/h, and the COMMIT phase
(advance_to_final_positions) leaves its linear and angular velocities
exactly zero, its stored position equal to the prescribed next_position,
and every attached collider carrying that new position. -/
theorem kinematic_substep (h : ℚ) (hh : h ≠ 0) :
    (∀ (bodies : List RigidBody) (i : ℕ) (b : RigidBody),
      bodies[i]? = some b → b.isActive = true → b.isKinematic = true →
        ((interpolateKinematicVelocities (invDtOf h) bodies)[i]?.map RigidBody.linvelX =
            some ((b.next_position.trX - b.position.trX) * (1 / h)) ∧
          (interpolateKinematicVelocities (invDtOf h) bodies)[i]?.map RigidBody.linvelY =
            some ((b.next_position.trY - b.position.trY) * (1 / h)) ∧
          (interpolateKinematicVelocities (invDtOf h) bodies)[i]?.map RigidBody.angvel =
            some ((b.next_position.rot - b.position.rot) * (1 / h)))) ∧
    (∀ (bodies : List RigidBody) (cs : List Collider) (i : ℕ) (b : RigidBody),
      bodies[i]? = some b → b.isActive = true → b.isKinematic = true →
        ((advanceToFinalPositions bodies cs).1[i]?.map RigidBody.linvelX = some 0 ∧
          (advanceToFinalPositions bodies cs).1[i]?.map RigidBody.linvelY = some 0 ∧
          (advanceToFinalPositions bodies cs).1[i]?.map RigidBody.angvel = some 0 ∧
          (advanceToFinalPositions bodies cs).1[i]?.map RigidBody.position =
            some b.next_position ∧
          ∀ (jc : ℕ) (c : Collider), cs[jc]? = some c → c.parent = i →
            (advanceToFinalPositions bodies cs).2[jc]?.map Collider.pos =
              some b.next_position)) := by
  constructor
  · intro bodies i b hb hact hkin
    simp [interpolateKinematicVelocities, List.getElem?_map, hb, hact, hkin,
      computeVelocityFromNextPosition, invDtOf, hh]
  · intro bodies cs i b hb hact hkin
    refine ⟨?_, ?_, ?_, ?_, ?_⟩
    · simp [advanceToFinalPositions, List.getElem?_map, hb, hact, hkin, advanceBody]
    · simp [advanceToFinalPositions, List.getElem?_map, hb, hact, hkin, advanceBody]
    · simp [advanceToFinalPositions, List.getElem?_map, hb, hact, hkin, advanceBody]
    · simp [advanceToFinalPositions, List.getElem?_map, hb, hact, hkin, advanceBody]
    · intro jc c hc hparent
      simp [advanceToFinalPositions, List.getElem?_map, hc, hparent, hb, hact, hkin,
        advanceBody]

/-- Witness for C7 on a concrete body and collider with substep duration 2. -/
theorem kinematic_substep_witness :
    (interpolateKinematicVelocities (invDtOf 2) [bodyEx])[0]?.map RigidBody.linvelX =
        some ((bodyEx.next_position.trX - bodyEx.position.trX) * (1 / 2)) ∧
      (advanceToFinalPositions [bodyEx] [colEx]).1[0]?.map RigidBody.position =
        some bodyEx.next_position ∧
      (advanceToFinalPositions [bodyEx] [colEx]).2[0]?.map Collider.pos =
        some bodyEx.next_position := by
  have h := kinematic_substep 2 (by norm_num)
  have h1 := h.1 [bodyEx] 0 bodyEx rfl rfl rfl
  have h2 := h.2 [bodyEx] [colEx] 0 bodyEx rfl rfl rfl
  exact ⟨h1.1, h2.2.2.2.1, h2.2.2.2.2 0 colEx rfl rfl⟩

lemma vecResize_grow {α : Type} (l : List α) (n : ℕ) (d : α) (h : l.length ≤ n) :
    vecResize l n d = l ++ List.replicate (n - l.length) d := by
  rw [vecResize, List.take_of_length_le h]

lemma vecResize_length {α : Type} (l : List α) (n : ℕ) (d : α) (h : l.length ≤ n) :
    (vecResize l n d).length = n := by
  rw [vecResize_grow l n d h]
  simp
  omega

lemma vecResize_take {α : Type} (l : List α) (n : ℕ) (d : α) (h : l.length ≤ n) :
    (vecResize l n d).take l.length = l := by
  rw [vecResize_grow l n d h]
  exact List.take_left l _

lemma growWorkspace_mi (ws : PhysicsWorkspace) (n : ℕ) :
    (growWorkspace ws n).manifold_indices =
      if ws.manifold_indices.length < n then vecResize ws.manifold_indices n []
      else ws.manifold_indices := rfl

lemma growWorkspace_ji (ws : PhysicsWorkspace) (n : ℕ) :
    (growWorkspace ws n).joint_constraint_indices =
      if ws.joint_constraint_indices.length < n
      then vecResize ws.joint_constraint_indices n []
      else ws.joint_constraint_indices := rfl

lemma growWorkspace_so (ws : PhysicsWorkspace) (n : ℕ) :
    (growWorkspace ws n).solvers =
      if ws.solvers.length < n then vecResize ws.solvers n 0 else ws.solvers := rfl

lemma grow_branch_length {α : Type} (l : List α) (n : ℕ) (d : α) :
    (if l.length < n then vecResize l n d else l).length = max l.length n := by
  split_ifs with h
  · rw [vecResize_length l n d (le_of_lt h)]
    omega
  · omega

lemma grow_branch_take {α : Type} (l : List α) (n : ℕ) (d : α) :
    (if l.length < n then vecResize l n d else l).take l.length = l := by
  split_ifs with h
  · exact vecResize_take l n d (le_of_lt h)
  · exact List.take_length l

lemma stepWorkspace_mono (counts : List ℕ) :
    ∀ ws : PhysicsWorkspace,
      ws.manifold_indices.length ≤ (stepWorkspace ws counts).manifold_indices.length ∧
        ws.joint_constraint_indices.length ≤
          (stepWorkspace ws counts).joint_constraint_indices.length ∧
        ws.solvers.length ≤ (stepWorkspace ws counts).solvers.length := by
  induction counts with
  | nil =>
    intro ws
    simp [stepWorkspace]
  | cons c cs ih =>
    intro ws
    have hstep : stepWorkspace ws (c :: cs) = stepWorkspace (growWorkspace ws c) cs := by
      simp [stepWorkspace]
    have hg1 := grow_branch_length ws.manifold_indices c ([] : List ℕ)
    have hg2 := grow_branch_length ws.joint_constraint_indices c ([] : List ℕ)
    have hg3 := grow_branch_length ws.solvers c 0
    rw [← growWorkspace_mi] at hg1
    rw [← growWorkspace_ji] at hg2
    rw [← growWorkspace_so] at hg3
    have hrec := ih (growWorkspace ws c)
    rw [hstep]
    omega

/-- C8: the three workspace vectors of the pipeline never shrink.  For any
island count n, growing the workspace (as build_islands_and_solve_constraints
does once per substep) yields vectors whose lengths are the maximum of the
old length and n (so lengths never decrease and each is at least the current
island count after the pass), the existing entries are retained as a prefix,
a vector is left untouched whenever the island count does not exceed its
length, and the lengths are monotone across the whole sequence of solve
passes of a step call. -/
theorem workspace_monotone (ws : PhysicsWorkspace) (n : ℕ) (counts : List ℕ) :
    ((growWorkspace ws n).manifold_indices.length = max ws.manifold_indices.length n ∧
      (growWorkspace ws n).joint_constraint_indices.length =
        max ws.joint_constraint_indices.length n ∧
      (growWorkspace ws n).solvers.length = max ws.solvers.length n) ∧
    ((growWorkspace ws n).manifold_indices.take ws.manifold_indices.length =
        ws.manifold_indices ∧
      (growWorkspace ws n).joint_constraint_indices.take
          ws.joint_constraint_indices.length = ws.joint_constraint_indices ∧
      (growWorkspace ws n).solvers.take ws.solvers.length = ws.solvers) ∧
    ((n ≤ ws.manifold_indices.length →
        (growWorkspace ws n).manifold_indices = ws.manifold_indices) ∧
      (n ≤ ws.joint_constraint_indices.length →
        (growWorkspace ws n).joint_constraint_indices = ws.joint_constraint_indices) ∧
      (n ≤ ws.solvers.length → (growWorkspace ws n).solvers = ws.solvers)) ∧
    (ws.manifold_indices.length ≤ (stepWorkspace ws counts).manifold_indices.length ∧
      ws.joint_constraint_indices.length ≤
        (stepWorkspace ws counts).joint_constraint_indices.length ∧
      ws.solvers.length ≤ (stepWorkspace ws counts).solvers.length) := by
  refine ⟨⟨?_, ?_, ?_⟩, ⟨?_, ?_, ?_⟩, ⟨?_, ?_, ?_⟩, stepWorkspace_mono counts ws⟩
  · rw [growWorkspace_mi]
    exact grow_branch_length _ n _
  · rw [growWorkspace_ji]
    exact grow_branch_length _ n _
  · rw [growWorkspace_so]
    exact grow_branch_length _ n _
  · rw [growWorkspace_mi]
    exact grow_branch_take _ n _
  · rw [growWorkspace_ji]
    exact grow_branch_take _ n _
  · rw [growWorkspace_so]
    exact grow_branch_take _ n _
  · intro h
    rw [growWorkspace_mi, if_neg (by omega)]
  · intro h
    rw [growWorkspace_ji, if_neg (by omega)]
  · intro h
    rw [growWorkspace_so, if_neg (by omega)]

/-- Witness for C8 with island counts 2 (growing) and 1 (not growing). -/
theorem workspace_monotone_witness :
    (growWorkspace wsEx 2).solvers.length = max wsEx.solvers.length 2 ∧
      (growWorkspace wsEx 2).solvers.take wsEx.solvers.length = wsEx.solvers ∧
      (growWorkspace wsEx 1).solvers = wsEx.solvers ∧
      wsEx.solvers.length ≤ (stepWorkspace wsEx [3, 1]).solvers.length := by
  have h2 := workspace_monotone wsEx 2 [3, 1]
  have h1 := workspace_monotone wsEx 1 [3, 1]
  exact ⟨h2.1.2.2, h2.2.1.2.2, h1.2.2.1.2.2 (by decide), h2.2.2.2.2.2⟩

/-- C9: the fracture radius of VoxelFractureHooks::post_solve is computed
with the epsilon-safe inverse (radius = max_momentum * inv force), the
computation is total and never divides by a value the guard lets through as
near zero (any force whose magnitude is within eps of zero, including zero
itself, inverts to 0 instead of being divided by), and contact points whose
force is below min_force are skipped before the inverse is taken. -/
theorem fracture_radius_guarded (mat : VoxelFractureMaterial)
    (eps invDt impulse : ℚ) (heps : 0 ≤ eps) :
    (impulse * invDt < mat.min_force →
        fractureRadiusAt mat eps invDt impulse = none) ∧
      (¬ impulse * invDt < mat.min_force →
        fractureRadiusAt mat eps invDt impulse =
          some (mat.max_momentum * epsInv eps (impulse * invDt))) ∧
      (∀ x : ℚ, |x| ≤ eps → epsInv eps x = 0) ∧
      epsInv eps 0 = 0 := by
  refine ⟨?_, ?_, ?_, ?_⟩
  · intro h
    simp [fractureRadiusAt, h]
  · intro h
    simp [fractureRadiusAt, h]
  · intro x hx
    simp [epsInv, hx]
  · simp [epsInv, heps]

/-- Witness for C9: with inv_dt = 60, a zero-impulse contact is skipped
(force 0 below min_force 1), a unit-impulse contact gets the epsilon-safe
radius, and the inverse of zero is zero. -/
theorem fracture_radius_guarded_witness :
    fractureRadiusAt matEx (1 / 1000) 60 0 = none ∧
      fractureRadiusAt matEx (1 / 1000) 60 1 =
        some (matEx.max_momentum * epsInv (1 / 1000) (1 * 60)) ∧
      epsInv ((1 : ℚ) / 1000) 0 = 0 := by
  have h0 := fracture_radius_guarded matEx (1 / 1000) 60 0 (by norm_num)
  have h1 := fracture_radius_guarded matEx (1 / 1000) 60 1 (by norm_num)
  exact ⟨h0.1 (by norm_num [matEx]), h1.2.1 (by norm_num [matEx]), h0.2.2.2⟩
